import Mathlib

/-!
Verification of the cache subsystem of the calibre-api repository
(`src/calibre/cache.py`): the `PersistentCache` store (bounded, TTL-expiring,
disk-backed key/value map) and the `cache` decorator (memoizer) built on it.

Modelling conventions:
* Python's JSON-serializable values are the inductive `PyVal`; dictionary keys
  that `json.dumps` accepts (str, int, bool, None) are `DKey`.  Floats are not
  modelled; all timestamps are integers (`time.time()` is modelled as an
  arbitrary integer instant supplied to each operation).
* The in-memory dict `self._cache` is an insertion-ordered association list
  `Cache`; assignment to an existing key keeps its position and a new key is
  appended, exactly like a Python dict.
* Fallible Python code (uncaught exceptions) is modelled with `Except`.
* File I/O is modelled by its data content: the snapshot file a successful
  `_save_cache` produces is the parsed JSON document `PersistentCache.saveFile`
  (the value a later `json.load` of the written text returns), and
  `PersistentCache.loadCache` consumes a `LoadResult` describing what
  `_load_cache` finds (missing file, I/O error, unparsable text, or a parsed
  JSON document).
-/

/-- Dictionary keys accepted by Python's `json.dumps`: `str`, `int`, `bool`,
`None`.  Composite keys (tuples, lists, dicts) would raise `TypeError` in
`json.dumps` and are excluded from the model. -/
inductive DKey where
  | str (s : String)
  | int (n : Int)
  | bool (b : Bool)
  | none
deriving DecidableEq, Repr

/-- JSON-serializable Python values: `None`, `bool`, `int`, `str`, `list`,
`tuple` and string-keyed-able `dict`.  These are the values the cache can hold
and persist; floats are not modelled. -/
inductive PyVal where
  | none
  | bool (b : Bool)
  | int (n : Int)
  | str (s : String)
  | list (xs : List PyVal)
  | tuple (xs : List PyVal)
  | dict (kvs : List (DKey × PyVal))
deriving Repr

/-- Lower-case hexadecimal digit, as produced by Python's `json` escaping. -/
def hexDigit (n : Nat) : Char :=
  if n < 10 then Char.ofNat (48 + n) else Char.ofNat (87 + n)

/-- Four lower-case hex digits, the `XXXX` of a `\uXXXX` escape. -/
def hex4 (n : Nat) : String :=
  String.mk [hexDigit (n / 4096 % 16), hexDigit (n / 256 % 16),
             hexDigit (n / 16 % 16), hexDigit (n % 16)]

/-- Escaping of one character inside a JSON string literal, following
`json.dumps` with its default `ensure_ascii=True`: the two-character escapes
for quote, backslash and the common control characters, `\uXXXX` for other
control and all non-ASCII characters, and surrogate pairs beyond U+FFFF. -/
def escapeChar (c : Char) : String :=
  if c = '"' then "\\\""
  else if c = '\\' then "\\\\"
  else if c = '\n' then "\\n"
  else if c = '\t' then "\\t"
  else if c = '\r' then "\\r"
  else if c.toNat = 8 then "\\b"
  else if c.toNat = 12 then "\\f"
  else if c.toNat < 32 then "\\u" ++ hex4 c.toNat
  else if c.toNat < 127 then String.mk [c]
  else if c.toNat ≤ 65535 then "\\u" ++ hex4 c.toNat
  else "\\u" ++ hex4 (55296 + (c.toNat - 65536) / 1024) ++
       "\\u" ++ hex4 (56320 + (c.toNat - 65536) % 1024)

/-- A JSON string literal for `s`, as `json.dumps` prints it. -/
def quoteJsonStr (s : String) : String :=
  "\"" ++ String.join (s.data.map escapeChar) ++ "\""

/-- How `json.dumps` coerces a non-string dict key to a string
(`str` unchanged, `int` via `str()`, `True`/`False`/`None` to their JSON
spellings). -/
def coerceKey : DKey → String
  | .str s => s
  | .int n => toString n
  | .bool true => "true"
  | .bool false => "false"
  | .none => "null"

mutual
/-- Python's `json.dumps(v)` with default arguments (separators `", "` and
`": "`, `ensure_ascii=True`).  Tuples serialize exactly like lists. -/
def pyJsonDumps : PyVal → String
  | .none => "null"
  | .bool true => "true"
  | .bool false => "false"
  | .int n => toString n
  | .str s => quoteJsonStr s
  | .list xs => "[" ++ String.intercalate ", " (dumpsList xs) ++ "]"
  | .tuple xs => "[" ++ String.intercalate ", " (dumpsList xs) ++ "]"
  | .dict kvs => "\x7b" ++ String.intercalate ", " (dumpsDict kvs) ++ "\x7d"
/-- Serializations of the elements of a JSON array. -/
def dumpsList : List PyVal → List String
  | [] => []
  | x :: xs => pyJsonDumps x :: dumpsList xs
/-- Serializations of the `"key": value` members of a JSON object. -/
def dumpsDict : List (DKey × PyVal) → List String
  | [] => []
  | (k, v) :: rest => (quoteJsonStr (coerceKey k) ++ ": " ++ pyJsonDumps v) :: dumpsDict rest
end

/-- Assignment `d[k] = v` on a Python dict represented as an ordered
association list: an existing key keeps its position and takes the new value,
a new key is appended. -/
def pyDictAssign (acc : List (DKey × PyVal)) (k : DKey) (v : PyVal) :
    List (DKey × PyVal) :=
  match acc with
  | [] => [(k, v)]
  | (k1, v1) :: rest =>
      if k1 = k then (k1, v) :: rest else (k1, v1) :: pyDictAssign rest k v

/-- Building a Python dict by assigning the pairs of `l` in order into `acc`,
as `json.load` builds an object (a duplicated key keeps its first position and
its last value). -/
def buildPyDict (l : List (DKey × PyVal)) (acc : List (DKey × PyVal)) :
    List (DKey × PyVal) :=
  match l with
  | [] => acc
  | (k, v) :: rest => buildPyDict rest (pyDictAssign acc k v)

mutual
/-- The effect of `json.loads(json.dumps(v))`: the Python value read back
after one serialization round trip.  Tuples come back as lists, dict keys are
coerced to strings, and duplicated coerced keys collapse last-value-wins. -/
def jsonNormalize : PyVal → PyVal
  | .none => .none
  | .bool b => .bool b
  | .int n => .int n
  | .str s => .str s
  | .list xs => .list (normalizeList xs)
  | .tuple xs => .list (normalizeList xs)
  | .dict kvs => .dict (buildPyDict (normalizePairs kvs) [])
/-- Round trip of every element of an array. -/
def normalizeList : List PyVal → List PyVal
  | [] => []
  | x :: xs => jsonNormalize x :: normalizeList xs
/-- Round trip of an object's members: keys coerced to strings, values
normalized (before duplicate collapsing). -/
def normalizePairs : List (DKey × PyVal) → List (DKey × PyVal)
  | [] => []
  | (k, v) :: rest => (DKey.str (coerceKey k), jsonNormalize v) :: normalizePairs rest
end

/-- One cache entry, the dict `{'value': ..., 'timestamp': ..., 'expires_at': ...}`
that `PersistentCache.set` stores.  `timestamp` is the creation instant
(`created_at` in the specification) and `expires_at` the expiry instant. -/
structure CacheEntry where
  value : PyVal
  timestamp : Int
  expires_at : Int
deriving Repr

/-- The in-memory map `self._cache`: an insertion-ordered association list
from key to entry, mirroring a Python dict's iteration order. -/
abbrev Cache := List (String × CacheEntry)

/-- Python `self._cache.get(key)`: the entry at `key`, if present. -/
def alookup (key : String) : Cache → Option CacheEntry
  | [] => Option.none
  | (k, e) :: rest => if k = key then some e else alookup key rest

/-- Python `self._cache[key] = entry`: replace in place if the key exists,
else append. -/
def aset (key : String) (e : CacheEntry) : Cache → Cache
  | [] => [(key, e)]
  | (k, e1) :: rest => if k = key then (k, e) :: rest else (k, e1) :: aset key e rest

/-- Python `del self._cache[key]` (for a key known present; removing an absent
key leaves the list unchanged). -/
def aerase (key : String) (c : Cache) : Cache :=
  c.filter (fun p => p.1 != key)

/-- The keys of the map are pairwise distinct — true of every Python dict, an
invariant the list representation must carry explicitly. -/
abbrev keysNodup (c : Cache) : Prop := (c.map Prod.fst).Nodup

namespace PersistentCache

/-- Python `PersistentCache._cleanup` minus its persistence side effect: remove every
entry whose `expires_at <= current_time`. -/
def cleanup (now : Int) (c : Cache) : Cache :=
  c.filter (fun p => decide (now < p.2.expires_at))

/-- Python `PersistentCache.get(key)`: run cleanup, then return the value if the
entry exists and is unexpired; an expired entry found after cleanup would be
deleted before returning `None`.  Result: the returned `Optional[Any]` and the
in-memory map the call leaves behind. -/
def get (now : Int) (c : Cache) (key : String) : Option PyVal × Cache :=
  let c1 := cleanup now c
  match alookup key c1 with
  | some entry =>
      if now < entry.expires_at then (some entry.value, c1)
      else (Option.none, aerase key c1)
  | Option.none => (Option.none, c1)

/-- The single error `set` can raise: `min()` over an empty dict
(`ValueError`), reached when eviction triggers on an empty map. -/
inductive SetError where
  | minEmpty
deriving DecidableEq, Repr

/-- The fold inside Python's `min(iterable, key=...)`: scan the remaining
entries, replacing the current best `(key, timestamp)` only on a strictly
smaller timestamp, so the first minimum wins. -/
def pyMinGo (best : String × Int) : Cache → String × Int
  | [] => best
  | (k, e) :: rest =>
      if e.timestamp < best.2 then pyMinGo (k, e.timestamp) rest
      else pyMinGo best rest

/-- Python `min(self._cache, key=lambda k: self._cache[k]['timestamp'])`: the first
key of minimal timestamp in iteration order, or `None` (Python: `ValueError`)
on an empty dict. -/
def pyMinByTimestamp : Cache → Option String
  | [] => Option.none
  | (k, e) :: rest => some (pyMinGo (k, e.timestamp) rest).1

/-- Python `ttl = expire or self._default_ttl`: Python's `or` takes the default when
`expire` is `None` — and also when it is the falsy integer `0`. -/
def effectiveTtl (defaultTtl : Int) (expire : Option Int) : Int :=
  match expire with
  | Option.none => defaultTtl
  | some t => if t = 0 then defaultTtl else t

/-- Python `PersistentCache.set(key, value, expire)`: cleanup; if the map has reached
`max_size`, delete the oldest-timestamp key (`min` raising `ValueError` when
the map is empty); then store `{'value': value, 'timestamp': now,
'expires_at': now + ttl}` and persist.  Result: the in-memory map, or the
uncaught `ValueError`. -/
def set (maxSize defaultTtl now : Int) (c : Cache) (key : String)
    (value : PyVal) (expire : Option Int) : Except SetError Cache :=
  let c1 := cleanup now c
  let afterEvict : Except SetError Cache :=
    if maxSize ≤ (c1.length : Int) then
      match pyMinByTimestamp c1 with
      | Option.none => Except.error SetError.minEmpty
      | some oldestKey => Except.ok (aerase oldestKey c1)
    else Except.ok c1
  afterEvict.map (fun c2 =>
    aset key
      { value := value, timestamp := now,
        expires_at := now + effectiveTtl defaultTtl expire } c2)

/-- Python `PersistentCache.clear(key)`: with a truthy key, delete it if present;
with `None` — or the falsy empty string — clear the whole map. -/
def clear (c : Cache) (key : Option String) : Cache :=
  match key with
  | Option.none => []
  | some k =>
      if k = "" then []
      else if (alookup k c).isSome then aerase k c else c

/-- The dict `PersistentCache.set` stores for one entry, as a Python value. -/
def entryToPy (e : CacheEntry) : PyVal :=
  .dict [(.str "value", e.value), (.str "timestamp", .int e.timestamp),
         (.str "expires_at", .int e.expires_at)]

/-- The whole in-memory map as the Python value `json.dump` receives. -/
def cacheToPy (c : Cache) : PyVal :=
  .dict (c.map (fun p => (DKey.str p.1, entryToPy p.2)))

/-- The snapshot a successful `_save_cache` leaves on disk, described by the
parsed JSON document a later `json.load` of the written text yields. -/
def saveFile (c : Cache) : PyVal :=
  jsonNormalize (cacheToPy c)

/-- What `_load_cache` finds: no file, an `IOError`, text `json.load` rejects
(`json.JSONDecodeError`), or a successfully parsed JSON document. -/
inductive LoadResult where
  | missing
  | ioError
  | parseError
  | parsed (v : PyVal)

/-- The uncaught exceptions `_load_cache` can raise on a parsed document of
unexpected shape (only `JSONDecodeError` and `IOError` are caught):
`notADict` is the `AttributeError` from `.items()` on a non-dict document,
`badKey` a non-string top-level key (unreachable from real `json.load`
output), `badEntry` the `TypeError`/`KeyError` from an entry that is not a
dict with an integer `expires_at` (for an entry kept live, the model also
demands the integer `timestamp` and the `value` field here, which Python
would only demand at the first later `get`/`set` touching the entry). -/
inductive LoadError where
  | notADict
  | badKey
  | badEntry
deriving DecidableEq, Repr

/-- First binding of the string key `k` in an association list of parsed
JSON object members. -/
def dictFind : List (DKey × PyVal) → String → Option PyVal
  | [], _ => Option.none
  | (k1, v1) :: rest, k => if k1 = DKey.str k then some v1 else dictFind rest k

/-- Python `v['expires_at']`-style access on a parsed JSON value: present only
when `v` is a dict holding the string key. -/
def pyDictGet (v : PyVal) (k : String) : Option PyVal :=
  match v with
  | .dict kvs => dictFind kvs k
  | _ => Option.none

/-- One step of the comprehension in `_load_cache`: keep the pair when
`v['expires_at'] > current_time`, drop it when expired, raise on a pair of
unexpected shape. -/
def loadEntry (now : Int) : DKey × PyVal → Except LoadError (Option (String × CacheEntry))
  | (DKey.str k, v) =>
      match pyDictGet v "expires_at" with
      | some (PyVal.int ea) =>
          if now < ea then
            match pyDictGet v "timestamp", pyDictGet v "value" with
            | some (PyVal.int ts), some value =>
                Except.ok (some (k, { value := value, timestamp := ts, expires_at := ea }))
            | _, _ => Except.error LoadError.badEntry
          else Except.ok Option.none
      | some _ => Except.error LoadError.badEntry
      | Option.none => Except.error LoadError.badEntry
  | _ => Except.error LoadError.badKey

/-- The whole comprehension over `loaded_cache.items()`, left to right,
aborting at the first exception. -/
def loadEntries (now : Int) : List (DKey × PyVal) → Except LoadError Cache
  | [] => Except.ok []
  | kv :: rest =>
      match loadEntry now kv with
      | Except.error e => Except.error e
      | Except.ok h =>
          match loadEntries now rest with
          | Except.error e => Except.error e
          | Except.ok t =>
              match h with
              | some p => Except.ok (p :: t)
              | Option.none => Except.ok t

/-- Python `PersistentCache._load_cache`: a missing file, an `IOError` or a JSON
parse failure all yield the empty map (the last two through the
`except (json.JSONDecodeError, IOError)` arm); a parsed document must be a
dict, whose unexpired entries are kept. -/
def loadCache (now : Int) (f : LoadResult) : Except LoadError Cache :=
  match f with
  | LoadResult.missing => Except.ok []
  | LoadResult.ioError => Except.ok []
  | LoadResult.parseError => Except.ok []
  | LoadResult.parsed (PyVal.dict kvs) => loadEntries now kvs
  | LoadResult.parsed _ => Except.error LoadError.notADict

end PersistentCache

/-- The keyword-argument dict of a call, as the Python value handed to
`json.dumps` (keys are strings, in call order). -/
def kwargsToPy (kwargs : List (String × PyVal)) : PyVal :=
  PyVal.dict (kwargs.map (fun p => (DKey.str p.1, p.2)))

/-- The key the `cache` decorator's wrapper derives:
`f"{func.__name__}_{json.dumps(args)}_{json.dumps(kwargs)}"`, with `args` the
positional-argument tuple and `kwargs` the keyword-argument dict. -/
def wrapperKey (name : String) (args : List PyVal)
    (kwargs : List (String × PyVal)) : String :=
  name ++ "_" ++ pyJsonDumps (PyVal.tuple args) ++ "_" ++
    pyJsonDumps (kwargsToPy kwargs)

/-- How a wrapper invocation can fail: the wrapped producer raised (the
exception passes through unchanged), or the store's `set` raised. -/
inductive WrapError (ε : Type) where
  | producer (e : ε)
  | store (e : PersistentCache.SetError)
deriving Repr

/-- The miss path of the wrapper: run the producer; on success store the
result under `key` with the decorator's `expire` and return it, on failure
let the exception propagate with nothing stored.  The `Bool` of the result
records that the producer was invoked. -/
def wrapperMiss {ε : Type} (maxSize defaultTtl expire : Int) (key : String)
    (producerResult : Except ε PyVal) (now : Int) (st1 : Cache) :
    Except (WrapError ε) PyVal × Cache × Bool :=
  match producerResult with
  | Except.error e => (Except.error (WrapError.producer e), st1, true)
  | Except.ok r =>
      match PersistentCache.set maxSize defaultTtl now st1 key r (some expire) with
      | Except.error e => (Except.error (WrapError.store e), st1, true)
      | Except.ok st2 => (Except.ok r, st2, true)

/-- One invocation of the `wrapper` closure the `cache(expire)` decorator
builds around a producer: derive the key, consult `get`, and return the
cached value on a hit — where the hit test is Python's
`cached_result is not None`, so a cached `None` value falls through to the
miss path.  The producer's outcome is the pure `producerResult`; `now` is the
call's time instant; the result carries the wrapper's outcome, the store's
final in-memory map, and whether the producer was invoked. -/
def pyWrapper {ε : Type} (maxSize defaultTtl expire : Int) (name : String)
    (args : List PyVal) (kwargs : List (String × PyVal))
    (producerResult : Except ε PyVal) (now : Int) (st : Cache) :
    Except (WrapError ε) PyVal × Cache × Bool :=
  let key := wrapperKey name args kwargs
  let gr := PersistentCache.get now st key
  match gr.1 with
  | some PyVal.none => wrapperMiss maxSize defaultTtl expire key producerResult now gr.2
  | some v => (Except.ok v, gr.2, false)
  | Option.none => wrapperMiss maxSize defaultTtl expire key producerResult now gr.2

/-! Helper lemmas about the association-list operations. -/

theorem alookup_mem {key : String} {e : CacheEntry} :
    ∀ {c : Cache}, alookup key c = some e → (key, e) ∈ c := by
  intro c
  induction c with
  | nil => intro h; cases h
  | cons hd tl ih =>
      intro h
      obtain ⟨k1, e1⟩ := hd
      by_cases hk : k1 = key
      · subst hk
        simp [alookup] at h
        subst h
        exact List.mem_cons_self _ _
      · simp [alookup, hk] at h
        exact List.mem_cons_of_mem _ (ih h)

theorem mem_cleanup {now : Int} {c : Cache} {p : String × CacheEntry}
    (h : p ∈ PersistentCache.cleanup now c) : p ∈ c :=
  List.mem_of_mem_filter h

theorem mem_cleanup_live {now : Int} {c : Cache} {p : String × CacheEntry}
    (h : p ∈ PersistentCache.cleanup now c) : now < p.2.expires_at := by
  have := List.of_mem_filter h
  simpa using this

theorem cleanup_length_le (now : Int) (c : Cache) :
    (PersistentCache.cleanup now c).length ≤ c.length :=
  List.length_filter_le _ _

theorem cleanup_idem (now : Int) (c : Cache) :
    PersistentCache.cleanup now (PersistentCache.cleanup now c) =
      PersistentCache.cleanup now c := by
  apply List.filter_eq_self.mpr
  intro p hp
  simpa using mem_cleanup_live hp

theorem mem_aerase {key : String} {c : Cache} {p : String × CacheEntry}
    (h : p ∈ aerase key c) : p ∈ c :=
  List.mem_of_mem_filter h

theorem aerase_cons_self (key : String) (e : CacheEntry) (tl : Cache) :
    aerase key ((key, e) :: tl) = aerase key tl := by
  simp [aerase, List.filter_cons]

theorem aerase_cons_ne {k1 key : String} (h : k1 ≠ key) (e : CacheEntry) (tl : Cache) :
    aerase key ((k1, e) :: tl) = (k1, e) :: aerase key tl := by
  simp [aerase, List.filter_cons, h]

theorem aerase_length_lt {key : String} :
    ∀ {c : Cache}, key ∈ c.map Prod.fst → (aerase key c).length < c.length := by
  intro c
  induction c with
  | nil => intro h; cases h
  | cons hd tl ih =>
      intro h
      obtain ⟨k1, e1⟩ := hd
      by_cases hk : k1 = key
      · subst hk
        rw [aerase_cons_self]
        have : (aerase k1 tl).length ≤ tl.length := List.length_filter_le _ _
        exact Nat.lt_succ_of_le this
      · have hmem : key ∈ tl.map Prod.fst := by
          simp only [List.map_cons, List.mem_cons] at h
          rcases h with h1 | h1
          · exact absurd h1.symm hk
          · exact h1
        rw [aerase_cons_ne hk]
        exact Nat.succ_lt_succ (ih hmem)

theorem alookup_aerase_ne {k2 key : String} (hne : k2 ≠ key) :
    ∀ (c : Cache), alookup k2 (aerase key c) = alookup k2 c := by
  intro c
  induction c with
  | nil => rfl
  | cons hd tl ih =>
      obtain ⟨k1, e1⟩ := hd
      by_cases hk : k1 = key
      · rw [hk, aerase_cons_self]
        have hne2 : ¬ key = k2 := fun h => hne h.symm
        simp [alookup, hne2, ih]
      · rw [aerase_cons_ne hk]
        by_cases hq : k1 = k2
        · simp [alookup, hq]
        · simp [alookup, hq, ih]

theorem aset_length_le (key : String) (e : CacheEntry) :
    ∀ (c : Cache), (aset key e c).length ≤ c.length + 1 := by
  intro c
  induction c with
  | nil => simp [aset]
  | cons hd tl ih =>
      obtain ⟨k1, e1⟩ := hd
      by_cases hk : k1 = key
      · simp [aset, hk]
      · simp only [aset, if_neg hk, List.length_cons]
        exact Nat.succ_le_succ ih

theorem alookup_aset_self (key : String) (e : CacheEntry) :
    ∀ (c : Cache), alookup key (aset key e c) = some e := by
  intro c
  induction c with
  | nil => simp [aset, alookup]
  | cons hd tl ih =>
      obtain ⟨k1, e1⟩ := hd
      by_cases hk : k1 = key
      · simp [aset, hk, alookup]
      · simp [aset, hk, alookup, ih]

theorem mem_aset {key : String} {e : CacheEntry} {p : String × CacheEntry} :
    ∀ {c : Cache}, p ∈ aset key e c → p = (key, e) ∨ p ∈ c := by
  intro c
  induction c with
  | nil =>
      intro h
      simp [aset] at h
      exact Or.inl h
  | cons hd tl ih =>
      intro h
      obtain ⟨k1, e1⟩ := hd
      by_cases hk : k1 = key
      · simp only [aset, if_pos hk] at h
        rcases List.mem_cons.mp h with h1 | h1
        · exact Or.inl (by rw [h1, hk])
        · exact Or.inr (List.mem_cons_of_mem _ h1)
      · simp only [aset, if_neg hk] at h
        rcases List.mem_cons.mp h with h1 | h1
        · exact Or.inr (h1 ▸ List.mem_cons_self _ _)
        · rcases ih h1 with h2 | h2
          · exact Or.inl h2
          · exact Or.inr (List.mem_cons_of_mem _ h2)

theorem keysNodup_filter {c : Cache} (f : String × CacheEntry → Bool)
    (h : keysNodup c) : keysNodup (c.filter f) :=
  h.sublist (List.Sublist.map Prod.fst (List.filter_sublist c))

theorem keysNodup_cleanup {now : Int} {c : Cache} (h : keysNodup c) :
    keysNodup (PersistentCache.cleanup now c) :=
  keysNodup_filter _ h

theorem keysNodup_aerase {key : String} {c : Cache} (h : keysNodup c) :
    keysNodup (aerase key c) :=
  keysNodup_filter _ h

theorem alookup_filter_keep {f : String × CacheEntry → Bool} {key : String}
    {e : CacheEntry} :
    ∀ {c : Cache}, keysNodup c → alookup key c = some e → f (key, e) = true →
      alookup key (c.filter f) = some e := by
  intro c
  induction c with
  | nil => intro _ h _; cases h
  | cons hd tl ih =>
      intro hnd h hf
      obtain ⟨k1, e1⟩ := hd
      by_cases hk : k1 = key
      · subst hk
        simp only [alookup, if_pos rfl] at h
        obtain rfl : e1 = e := by injection h
        rw [List.filter_cons, if_pos hf]
        simp [alookup]
      · simp only [alookup, if_neg hk] at h
        have hnd2 : keysNodup tl := by
          simpa [keysNodup] using (List.nodup_cons.mp hnd).2
        rw [List.filter_cons]
        by_cases hf1 : f (k1, e1) = true
        · rw [if_pos hf1]
          simp only [alookup, if_neg hk]
          exact ih hnd2 h hf
        · rw [if_neg hf1]
          exact ih hnd2 h hf

theorem alookup_filter_of_not_mem {key : String} (f : String × CacheEntry → Bool) :
    ∀ {c : Cache}, key ∉ c.map Prod.fst → alookup key (c.filter f) = Option.none := by
  intro c
  induction c with
  | nil => intro _; rfl
  | cons hd tl ih =>
      intro hout
      obtain ⟨k1, e1⟩ := hd
      have hk : k1 ≠ key := by
        intro hkk
        exact hout (by simp [hkk])
      have hout2 : key ∉ tl.map Prod.fst := fun hmem => hout (by simp [hmem])
      rw [List.filter_cons]
      by_cases hf1 : f (k1, e1) = true
      · rw [if_pos hf1]
        simp only [alookup, if_neg hk]
        exact ih hout2
      · rw [if_neg hf1]
        exact ih hout2

theorem alookup_filter_drop {f : String × CacheEntry → Bool} {key : String}
    {e : CacheEntry} :
    ∀ {c : Cache}, keysNodup c → alookup key c = some e → f (key, e) = false →
      alookup key (c.filter f) = Option.none := by
  intro c
  induction c with
  | nil => intro _ h _; cases h
  | cons hd tl ih =>
      intro hnd h hf
      obtain ⟨k1, e1⟩ := hd
      have hnd2 : keysNodup tl := by
        simpa [keysNodup] using (List.nodup_cons.mp hnd).2
      by_cases hk : k1 = key
      · subst hk
        simp only [alookup, if_pos rfl] at h
        obtain rfl : e1 = e := by injection h
        rw [List.filter_cons, if_neg (by simp [hf])]
        have hout : k1 ∉ tl.map Prod.fst := by
          simpa [keysNodup] using (List.nodup_cons.mp hnd).1
        exact alookup_filter_of_not_mem f hout
      · simp only [alookup, if_neg hk] at h
        rw [List.filter_cons]
        by_cases hf1 : f (k1, e1) = true
        · rw [if_pos hf1]
          simp only [alookup, if_neg hk]
          exact ih hnd2 h hf
        · rw [if_neg hf1]
          exact ih hnd2 h hf

theorem alookup_cleanup_live {now : Int} {key : String} {e : CacheEntry}
    {c : Cache} (hnd : keysNodup c) (h : alookup key c = some e)
    (hlive : now < e.expires_at) :
    alookup key (PersistentCache.cleanup now c) = some e :=
  alookup_filter_keep hnd h (by simpa using hlive)

theorem alookup_cleanup_dead {now : Int} {key : String} {e : CacheEntry}
    {c : Cache} (hnd : keysNodup c) (h : alookup key c = some e)
    (hdead : e.expires_at ≤ now) :
    alookup key (PersistentCache.cleanup now c) = Option.none :=
  alookup_filter_drop hnd h (by simpa using Int.not_lt.mpr hdead)

/-- After cleanup at the same instant, `get` can never find an expired entry,
so the dead-entry branch of `get` is unreachable and the map `get` leaves
behind is exactly the cleaned map. -/
theorem get_state (now : Int) (c : Cache) (key : String) :
    (PersistentCache.get now c key).2 = PersistentCache.cleanup now c := by
  cases hl : alookup key (PersistentCache.cleanup now c) with
  | none => simp [PersistentCache.get, hl]
  | some entry =>
      have hlive := mem_cleanup_live (alookup_mem hl)
      simp [PersistentCache.get, hl, hlive]

theorem pyMinGo_spec :
    ∀ (rest : Cache) (best : String × Int),
      (PersistentCache.pyMinGo best rest = best ∨
        ∃ p ∈ rest, PersistentCache.pyMinGo best rest = (p.1, p.2.timestamp)) ∧
      (PersistentCache.pyMinGo best rest).2 ≤ best.2 ∧
      ∀ p ∈ rest, (PersistentCache.pyMinGo best rest).2 ≤ p.2.timestamp := by
  intro rest
  induction rest with
  | nil =>
      intro best
      refine ⟨Or.inl rfl, le_refl _, ?_⟩
      intro p hp; cases hp
  | cons hd tl ih =>
      intro best
      obtain ⟨k, e⟩ := hd
      by_cases hlt : e.timestamp < best.2
      · have heq : PersistentCache.pyMinGo best ((k, e) :: tl) =
            PersistentCache.pyMinGo (k, e.timestamp) tl := by
          simp [PersistentCache.pyMinGo, hlt]
        obtain ⟨hmem, hle, hall⟩ := ih (k, e.timestamp)
        refine ⟨?_, ?_, ?_⟩
        · rcases hmem with h1 | ⟨p, hp, hp2⟩
          · exact Or.inr ⟨(k, e), List.mem_cons_self _ _, by rw [heq, h1]⟩
          · exact Or.inr ⟨p, List.mem_cons_of_mem _ hp, by rw [heq, hp2]⟩
        · rw [heq]
          exact le_trans hle (le_of_lt hlt)
        · intro p hp
          rcases List.mem_cons.mp hp with h1 | h1
          · rw [heq, h1]
            exact hle
          · rw [heq]
            exact hall p h1
      · have heq : PersistentCache.pyMinGo best ((k, e) :: tl) =
            PersistentCache.pyMinGo best tl := by
          simp [PersistentCache.pyMinGo, hlt]
        obtain ⟨hmem, hle, hall⟩ := ih best
        refine ⟨?_, ?_, ?_⟩
        · rcases hmem with h1 | ⟨p, hp, hp2⟩
          · exact Or.inl (by rw [heq, h1])
          · exact Or.inr ⟨p, List.mem_cons_of_mem _ hp, by rw [heq, hp2]⟩
        · rw [heq]
          exact hle
        · intro p hp
          rcases List.mem_cons.mp hp with h1 | h1
          · rw [heq, h1]
            exact le_trans hle (Int.not_lt.mp hlt)
          · rw [heq]
            exact hall p h1

/-- The key Python's `min` picks really is the key of an entry of the map of
minimal `timestamp`. -/
theorem pyMinByTimestamp_spec {c : Cache} {k0 : String}
    (h : PersistentCache.pyMinByTimestamp c = some k0) :
    ∃ e0, (k0, e0) ∈ c ∧ ∀ p ∈ c, e0.timestamp ≤ p.2.timestamp := by
  cases c with
  | nil => cases h
  | cons hd tl =>
      obtain ⟨k, e⟩ := hd
      simp only [PersistentCache.pyMinByTimestamp] at h
      obtain ⟨hmem, hle, hall⟩ := pyMinGo_spec tl (k, e.timestamp)
      set r := PersistentCache.pyMinGo (k, e.timestamp) tl with hr
      obtain rfl : r.1 = k0 := by injection h
      rcases hmem with h1 | ⟨p, hp, hp2⟩
      · refine ⟨e, ?_, ?_⟩
        · rw [h1]
          exact List.mem_cons_self _ _
        · intro p hp
          rcases List.mem_cons.mp hp with h2 | h2
          · rw [h2]
          · have := hall p h2
            rw [h1] at this
            exact this
      · refine ⟨p.2, ?_, ?_⟩
        · rw [hp2]
          exact List.mem_cons_of_mem _ (by simpa using hp)
        · intro q hq
          have h3 : r.2 = p.2.timestamp := by rw [hp2]
          rcases List.mem_cons.mp hq with h2 | h2
          · rw [h2]
            have h4 := hle
            rw [h3] at h4
            exact h4
          · have := hall q h2
            rw [h3] at this
            exact this

theorem pyMinByTimestamp_ne_nil {c : Cache} (h : c ≠ []) :
    ∃ k0, PersistentCache.pyMinByTimestamp c = some k0 := by
  cases c with
  | nil => exact absurd rfl h
  | cons hd tl =>
      obtain ⟨k, e⟩ := hd
      exact ⟨_, rfl⟩

/-! Case analysis of `PersistentCache.set`. -/

theorem set_eq_noevict {maxSize defaultTtl now : Int} {c : Cache} {key : String}
    {v : PyVal} {exp : Option Int}
    (hlen : ¬ maxSize ≤ ((PersistentCache.cleanup now c).length : Int)) :
    PersistentCache.set maxSize defaultTtl now c key v exp =
      Except.ok (aset key ⟨v, now, now + PersistentCache.effectiveTtl defaultTtl exp⟩
        (PersistentCache.cleanup now c)) := by
  simp [PersistentCache.set, hlen, Except.map]

theorem set_eq_evict {maxSize defaultTtl now : Int} {c : Cache} {key : String}
    {v : PyVal} {exp : Option Int} {k0 : String}
    (hlen : maxSize ≤ ((PersistentCache.cleanup now c).length : Int))
    (hmin : PersistentCache.pyMinByTimestamp (PersistentCache.cleanup now c) = some k0) :
    PersistentCache.set maxSize defaultTtl now c key v exp =
      Except.ok (aset key ⟨v, now, now + PersistentCache.effectiveTtl defaultTtl exp⟩
        (aerase k0 (PersistentCache.cleanup now c))) := by
  simp [PersistentCache.set, hlen, hmin, Except.map]

theorem set_eq_err {maxSize defaultTtl now : Int} {c : Cache} {key : String}
    {v : PyVal} {exp : Option Int}
    (hlen : maxSize ≤ ((PersistentCache.cleanup now c).length : Int))
    (hmin : PersistentCache.pyMinByTimestamp (PersistentCache.cleanup now c) =
      Option.none) :
    PersistentCache.set maxSize defaultTtl now c key v exp =
      Except.error PersistentCache.SetError.minEmpty := by
  simp [PersistentCache.set, hlen, hmin, Except.map]

theorem set_ok_cases {maxSize defaultTtl now : Int} {c : Cache} {key : String}
    {v : PyVal} {exp : Option Int} {c2 : Cache}
    (h : PersistentCache.set maxSize defaultTtl now c key v exp = Except.ok c2) :
    (¬ maxSize ≤ ((PersistentCache.cleanup now c).length : Int) ∧
      c2 = aset key ⟨v, now, now + PersistentCache.effectiveTtl defaultTtl exp⟩
        (PersistentCache.cleanup now c)) ∨
    (maxSize ≤ ((PersistentCache.cleanup now c).length : Int) ∧
      ∃ k0, PersistentCache.pyMinByTimestamp (PersistentCache.cleanup now c) = some k0 ∧
        c2 = aset key ⟨v, now, now + PersistentCache.effectiveTtl defaultTtl exp⟩
          (aerase k0 (PersistentCache.cleanup now c))) := by
  by_cases hlen : maxSize ≤ ((PersistentCache.cleanup now c).length : Int)
  · cases hmin : PersistentCache.pyMinByTimestamp (PersistentCache.cleanup now c) with
    | none =>
        rw [set_eq_err hlen hmin] at h
        cases h
    | some k0 =>
        rw [set_eq_evict hlen hmin] at h
        refine Or.inr ⟨hlen, k0, rfl, ?_⟩
        injection h with h1
        exact h1.symm
  · rw [set_eq_noevict hlen] at h
    refine Or.inl ⟨hlen, ?_⟩
    injection h with h1
    exact h1.symm

/-- C9 (amended): every entry written by `set` satisfies
`expires_at = created_at + ttl` where `ttl` is the supplied TTL when that TTL
is a non-zero integer, and the store-wide `default_ttl` when the call omits
the TTL, passes `None` — or passes the falsy integer `0` (Python's
`expire or self._default_ttl`); and no operation ever rewrites the timestamps
of an existing entry: every entry of the map left by `set` other than the
newly written one, and every entry of the maps left by `get` and `clear`, is
an entry the map already held. -/
theorem C9_expires_at_derived :
    (∀ (maxSize defaultTtl now : Int) (c : Cache) (key : String) (v : PyVal)
        (exp : Option Int) (c2 : Cache),
      PersistentCache.set maxSize defaultTtl now c key v exp = Except.ok c2 →
        alookup key c2 =
          some ⟨v, now, now + PersistentCache.effectiveTtl defaultTtl exp⟩ ∧
        ∀ p ∈ c2, p.1 ≠ key → p ∈ c) ∧
    (∀ (now : Int) (c : Cache) (key : String),
      ∀ p ∈ (PersistentCache.get now c key).2, p ∈ c) ∧
    (∀ (c : Cache) (key : Option String),
      ∀ p ∈ PersistentCache.clear c key, p ∈ c) := by
  refine ⟨?_, ?_, ?_⟩
  · intro maxSize defaultTtl now c key v exp c2 hset
    rcases set_ok_cases hset with ⟨hlen, rfl⟩ | ⟨hlen, k0, hmin, rfl⟩
    · refine ⟨alookup_aset_self _ _ _, ?_⟩
      intro p hp hne
      rcases mem_aset hp with h1 | h1
      · exact absurd (by rw [h1]) hne
      · exact mem_cleanup h1
    · refine ⟨alookup_aset_self _ _ _, ?_⟩
      intro p hp hne
      rcases mem_aset hp with h1 | h1
      · exact absurd (by rw [h1]) hne
      · exact mem_cleanup (mem_aerase h1)
  · intro now c key p hp
    rw [get_state] at hp
    exact mem_cleanup hp
  · intro c key p hp
    cases key with
    | none => cases hp
    | some k =>
        by_cases hk : k = ""
        · simp [PersistentCache.clear, hk] at hp
        · simp only [PersistentCache.clear, if_neg hk] at hp
          by_cases hsome : (alookup k c).isSome
          · rw [if_pos hsome] at hp
            exact mem_aerase hp
          · rw [if_neg hsome] at hp
            exact hp

/-- C9, counterexample to the claim as stated: a `set` call that explicitly
supplies the TTL `0` stores `expires_at = created_at + default_ttl` (here
`0 + 3600`), not `created_at + 0` — the default is substituted even though
the call did not omit the TTL, because Python's `expire or self._default_ttl`
treats the supplied `0` as falsy. -/
theorem C9_counterexample :
    PersistentCache.set 100 3600 0 [] "k" (PyVal.int 1) (some 0) =
      Except.ok [("k", ⟨PyVal.int 1, 0, 3600⟩)] ∧ (3600 : Int) ≠ 0 + 0 :=
  ⟨rfl, by decide⟩

/-- C9, witness: the amended theorem applied to a concrete `set` with the
explicit TTL `7` at time `5` on the empty store. -/
theorem C9_expires_at_derived_witness :
    alookup "k" [("k", ⟨PyVal.int 2, 5, 12⟩)] = some ⟨PyVal.int 2, 5, 12⟩ ∧
    ∀ p ∈ ([("k", ⟨PyVal.int 2, 5, 12⟩)] : Cache), p.1 ≠ "k" → p ∈ ([] : Cache) :=
  C9_expires_at_derived.1 100 3600 5 [] "k" (PyVal.int 2) (some 7)
    [("k", ⟨PyVal.int 2, 5, 12⟩)] rfl

/-- C10: a cached `None` value defeats memoization.  When `get` returns the
stored value `None`, the wrapper's hit test `cached_result is not None`
treats it as a miss, so the wrapper invokes the underlying producer again
(the `true` flag) and re-stores its result via `set`. -/
theorem C10_cached_none_is_miss :
    ∀ {ε : Type} (maxSize defaultTtl expire : Int) (name : String)
      (args : List PyVal) (kwargs : List (String × PyVal)) (r : PyVal)
      (now : Int) (st st2 : Cache),
      (PersistentCache.get now st (wrapperKey name args kwargs)).1 =
        some PyVal.none →
      PersistentCache.set maxSize defaultTtl now (PersistentCache.cleanup now st)
        (wrapperKey name args kwargs) r (some expire) = Except.ok st2 →
      pyWrapper maxSize defaultTtl expire name args kwargs
        (Except.ok r : Except ε PyVal) now st = (Except.ok r, st2, true) := by
  intro ε maxSize defaultTtl expire name args kwargs r now st st2 hget hset
  simp only [pyWrapper, hget, wrapperMiss, get_state, hset]

/-- C5: the memoization protocol of the wrapper the `cache(expire)` decorator
builds.  On a hit — `Store.get` returning a (non-`None`) cached value — the
wrapper returns that value at once and the producer is not invoked (flag
`false`), whatever the producer would have done.  On a miss — `Store.get`
returning `None` — the wrapper invokes the producer exactly once (flag
`true`), stores its result under the derived key with the decorator's TTL via
`Store.set`, and returns that same result. -/
theorem C5_memoizer_protocol :
    (∀ {ε : Type} (maxSize defaultTtl expire : Int) (name : String)
        (args : List PyVal) (kwargs : List (String × PyVal))
        (pr : Except ε PyVal) (now : Int) (st : Cache) (v : PyVal),
      (PersistentCache.get now st (wrapperKey name args kwargs)).1 = some v →
      v ≠ PyVal.none →
      pyWrapper maxSize defaultTtl expire name args kwargs pr now st =
        (Except.ok v, PersistentCache.cleanup now st, false)) ∧
    (∀ {ε : Type} (maxSize defaultTtl expire : Int) (name : String)
        (args : List PyVal) (kwargs : List (String × PyVal)) (r : PyVal)
        (now : Int) (st st2 : Cache),
      (PersistentCache.get now st (wrapperKey name args kwargs)).1 = Option.none →
      PersistentCache.set maxSize defaultTtl now (PersistentCache.cleanup now st)
        (wrapperKey name args kwargs) r (some expire) = Except.ok st2 →
      pyWrapper maxSize defaultTtl expire name args kwargs
        (Except.ok r : Except ε PyVal) now st = (Except.ok r, st2, true)) := by
  constructor
  · intro ε maxSize defaultTtl expire name args kwargs pr now st v hget hv
    cases v with
    | none => exact absurd rfl hv
    | bool b => simp only [pyWrapper, hget, get_state]
    | int n => simp only [pyWrapper, hget, get_state]
    | str s => simp only [pyWrapper, hget, get_state]
    | list xs => simp only [pyWrapper, hget, get_state]
    | tuple xs => simp only [pyWrapper, hget, get_state]
    | dict kvs => simp only [pyWrapper, hget, get_state]
  · intro ε maxSize defaultTtl expire name args kwargs r now st st2 hget hset
    simp only [pyWrapper, hget, wrapperMiss, get_state, hset]

/-- C5, witness: the hit arm on a store caching `7` under the derived key
(producer outcome irrelevant, here a failure), and the miss arm on the empty
store with producer result `9`. -/
theorem C5_memoizer_protocol_witness :
    pyWrapper 100 3600 60 "f" [] [] (Except.error () : Except Unit PyVal) 0
      [(wrapperKey "f" [] [], ⟨PyVal.int 7, 0, 100⟩)] =
      (Except.ok (PyVal.int 7),
        [(wrapperKey "f" [] [], ⟨PyVal.int 7, 0, 100⟩)], false) ∧
    pyWrapper 100 3600 60 "f" [] [] (Except.ok (PyVal.int 9) : Except Unit PyVal)
      0 [] =
      (Except.ok (PyVal.int 9), [(wrapperKey "f" [] [], ⟨PyVal.int 9, 0, 60⟩)], true) :=
  ⟨C5_memoizer_protocol.1 100 3600 60 "f" [] [] (Except.error ()) 0
      [(wrapperKey "f" [] [], ⟨PyVal.int 7, 0, 100⟩)] (PyVal.int 7) rfl
      (fun h => PyVal.noConfusion h),
   C5_memoizer_protocol.2 100 3600 60 "f" [] [] (PyVal.int 9) 0 []
      [(wrapperKey "f" [] [], ⟨PyVal.int 9, 0, 60⟩)] rfl rfl⟩

/-- C10, witness: a store whose derived-key entry holds the cached value
`None` (exactly what a prior miss whose producer returned `None` stores);
the wrapper still invokes the producer (flag `true`) and re-stores its
result. -/
theorem C10_cached_none_is_miss_witness :
    pyWrapper 100 3600 60 "f" [] [] (Except.ok PyVal.none : Except Unit PyVal) 0
      [(wrapperKey "f" [] [], ⟨PyVal.none, 0, 100⟩)] =
      (Except.ok PyVal.none,
        [(wrapperKey "f" [] [], ⟨PyVal.none, 0, 60⟩)], true) :=
  C10_cached_none_is_miss 100 3600 60 "f" [] [] PyVal.none 0
    [(wrapperKey "f" [] [], ⟨PyVal.none, 0, 100⟩)]
    [(wrapperKey "f" [] [], ⟨PyVal.none, 0, 60⟩)] rfl rfl

/-- C1 (amended): provided the in-memory map holds at most `max_size` entries
before the call — true of every store that started empty, and of every store
loaded from a snapshot holding at most `max_size` live entries — the map
`set` returns holds at most `max_size` entries, and hence at most `max_size`
live entries at any instant.  (Enforcement indeed happens inside `set` before
insertion; but a store loaded from a larger snapshot can exceed the bound,
see the counterexample.) -/
theorem C1_capacity_preserved :
    ∀ (maxSize defaultTtl now : Int) (c : Cache) (key : String) (v : PyVal)
      (exp : Option Int) (c2 : Cache),
      (c.length : Int) ≤ maxSize →
      PersistentCache.set maxSize defaultTtl now c key v exp = Except.ok c2 →
      (c2.length : Int) ≤ maxSize ∧
      ∀ t : Int, ((PersistentCache.cleanup t c2).length : Int) ≤ maxSize := by
  intro maxSize defaultTtl now c key v exp c2 hbound hset
  have hc1 : (PersistentCache.cleanup now c).length ≤ c.length :=
    cleanup_length_le now c
  have hmain : (c2.length : Int) ≤ maxSize := by
    rcases set_ok_cases hset with ⟨hlen, rfl⟩ | ⟨hlen, k0, hmin, rfl⟩
    · have h1 := aset_length_le key
        ⟨v, now, now + PersistentCache.effectiveTtl defaultTtl exp⟩
        (PersistentCache.cleanup now c)
      omega
    · obtain ⟨e0, hmem, _⟩ := pyMinByTimestamp_spec hmin
      have hk0 : k0 ∈ (PersistentCache.cleanup now c).map Prod.fst :=
        List.mem_map.mpr ⟨(k0, e0), hmem, rfl⟩
      have h2 := aerase_length_lt hk0
      have h3 := aset_length_le key
        ⟨v, now, now + PersistentCache.effectiveTtl defaultTtl exp⟩
        (aerase k0 (PersistentCache.cleanup now c))
      omega
  refine ⟨hmain, ?_⟩
  intro t
  have := cleanup_length_le t c2
  omega

/-- C1, counterexample to the claim as stated: a store constructed with
`max_size = 1` over a snapshot holding two live entries (written, e.g., by a
prior store with the default `max_size = 100`) loads both entries, and a
subsequent `set` evicts only one of them before inserting, returning with two
entries — more than `max_size`. -/
theorem C1_counterexample :
    PersistentCache.loadCache 10 (PersistentCache.LoadResult.parsed
      (PersistentCache.saveFile
        [("a", ⟨PyVal.int 1, 0, 1000⟩), ("b", ⟨PyVal.int 2, 1, 1000⟩)])) =
      Except.ok [("a", ⟨PyVal.int 1, 0, 1000⟩), ("b", ⟨PyVal.int 2, 1, 1000⟩)] ∧
    PersistentCache.set 1 3600 10
      [("a", ⟨PyVal.int 1, 0, 1000⟩), ("b", ⟨PyVal.int 2, 1, 1000⟩)]
      "c" (PyVal.int 3) Option.none =
      Except.ok [("b", ⟨PyVal.int 2, 1, 1000⟩), ("c", ⟨PyVal.int 3, 10, 3610⟩)] ∧
    ¬ ((([("b", ⟨PyVal.int 2, 1, 1000⟩), ("c", ⟨PyVal.int 3, 10, 3610⟩)] :
        Cache).length : Int) ≤ 1) :=
  ⟨rfl, rfl, by decide⟩

/-- C1, witness: the amended bound applied to a `set` on the empty store with
`max_size = 2`. -/
theorem C1_capacity_preserved_witness :
    (([] : Cache).length : Int) ≤ 2 ∧
    ((([("k", ⟨PyVal.int 5, 0, 3600⟩)] : Cache).length : Int) ≤ 2 ∧
      ∀ t : Int,
        ((PersistentCache.cleanup t [("k", ⟨PyVal.int 5, 0, 3600⟩)]).length : Int) ≤ 2) :=
  ⟨by decide,
   C1_capacity_preserved 2 3600 0 [] "k" (PyVal.int 5) Option.none
     [("k", ⟨PyVal.int 5, 0, 3600⟩)] (by decide) rfl⟩

/-- C2 (amended): whenever `set` finds the live entry count at or above
`max_size` and at least one live entry exists, it evicts exactly one entry
before inserting — the first key in insertion order whose `timestamp`
(`created_at`) is minimal among all live entries, a deterministic choice —
and then inserts the new entry; when no live entry exists and
`max_size <= 0`, `set` instead raises `ValueError` from `min()` and inserts
nothing (see the counterexample). -/
theorem C2_oldest_evicted :
    ∀ (maxSize defaultTtl now : Int) (c : Cache) (key : String) (v : PyVal)
      (exp : Option Int),
      PersistentCache.cleanup now c ≠ [] →
      maxSize ≤ ((PersistentCache.cleanup now c).length : Int) →
      ∃ k0 e0,
        PersistentCache.pyMinByTimestamp (PersistentCache.cleanup now c) = some k0 ∧
        (k0, e0) ∈ PersistentCache.cleanup now c ∧
        (∀ p ∈ PersistentCache.cleanup now c, e0.timestamp ≤ p.2.timestamp) ∧
        PersistentCache.set maxSize defaultTtl now c key v exp =
          Except.ok (aset key
            ⟨v, now, now + PersistentCache.effectiveTtl defaultTtl exp⟩
            (aerase k0 (PersistentCache.cleanup now c))) := by
  intro maxSize defaultTtl now c key v exp hne hlen
  obtain ⟨k0, hmin⟩ := pyMinByTimestamp_ne_nil hne
  obtain ⟨e0, hmem, hall⟩ := pyMinByTimestamp_spec hmin
  exact ⟨k0, e0, hmin, hmem, hall, set_eq_evict hlen hmin⟩

/-- C2, counterexample to the claim as stated: with `max_size = 0` and an
empty map, `set` finds the live entry count (`0`) at `max_size`, yet evicts
nothing and inserts nothing — it raises `ValueError` (`min()` over the empty
dict) instead of evicting one entry and inserting the new one. -/
theorem C2_counterexample :
    PersistentCache.set 0 3600 0 [] "k" (PyVal.int 1) Option.none =
      Except.error PersistentCache.SetError.minEmpty :=
  rfl

/-- C2, witness: a full store with a timestamp tie (`"x"` and `"y"` both
created at `5`); the amended theorem applies and the evicted key is the
deterministic first minimum `"x"`. -/
theorem C2_oldest_evicted_witness :
    PersistentCache.cleanup 10
      [("x", ⟨PyVal.int 1, 5, 100⟩), ("y", ⟨PyVal.int 2, 5, 100⟩)] ≠ [] ∧
    (2 : Int) ≤ ((PersistentCache.cleanup 10
      [("x", ⟨PyVal.int 1, 5, 100⟩), ("y", ⟨PyVal.int 2, 5, 100⟩)]).length : Int) ∧
    ∃ k0 e0,
      PersistentCache.pyMinByTimestamp (PersistentCache.cleanup 10
        [("x", ⟨PyVal.int 1, 5, 100⟩), ("y", ⟨PyVal.int 2, 5, 100⟩)]) = some k0 ∧
      (k0, e0) ∈ PersistentCache.cleanup 10
        [("x", ⟨PyVal.int 1, 5, 100⟩), ("y", ⟨PyVal.int 2, 5, 100⟩)] ∧
      (∀ p ∈ PersistentCache.cleanup 10
        [("x", ⟨PyVal.int 1, 5, 100⟩), ("y", ⟨PyVal.int 2, 5, 100⟩)],
        e0.timestamp ≤ p.2.timestamp) ∧
      PersistentCache.set 2 3600 10
        [("x", ⟨PyVal.int 1, 5, 100⟩), ("y", ⟨PyVal.int 2, 5, 100⟩)]
        "z" (PyVal.int 3) Option.none =
        Except.ok (aset "z" ⟨PyVal.int 3, 10, 10 + PersistentCache.effectiveTtl 3600 Option.none⟩
          (aerase k0 (PersistentCache.cleanup 10
            [("x", ⟨PyVal.int 1, 5, 100⟩), ("y", ⟨PyVal.int 2, 5, 100⟩)]))) :=
  ⟨List.cons_ne_nil _ _, by decide,
   C2_oldest_evicted 2 3600 10
     [("x", ⟨PyVal.int 1, 5, 100⟩), ("y", ⟨PyVal.int 2, 5, 100⟩)]
     "z" (PyVal.int 3) Option.none (List.cons_ne_nil _ _) (by decide)⟩

/-- C7 (amended): when the producer underlying a wrapped call fails, the
wrapper propagates that same failure to the caller and writes nothing: the
store's map afterwards is the map `get`'s lazy expiry cleanup left (no entry
added or changed — the live entries are exactly those live before, though
entries already expired at call time have been evicted by the `get`, see the
counterexample to literal state equality). -/
theorem C7_producer_failure :
    ∀ {ε : Type} (maxSize defaultTtl expire : Int) (name : String)
      (args : List PyVal) (kwargs : List (String × PyVal)) (e : ε)
      (now : Int) (st : Cache),
      ((PersistentCache.get now st (wrapperKey name args kwargs)).1 = Option.none ∨
       (PersistentCache.get now st (wrapperKey name args kwargs)).1 = some PyVal.none) →
      pyWrapper maxSize defaultTtl expire name args kwargs (Except.error e) now st =
        (Except.error (WrapError.producer e), PersistentCache.cleanup now st, true) ∧
      PersistentCache.cleanup now (PersistentCache.cleanup now st) =
        PersistentCache.cleanup now st := by
  intro ε maxSize defaultTtl expire name args kwargs e now st h
  rcases h with h | h
  · exact ⟨by simp only [pyWrapper, h, wrapperMiss, get_state], cleanup_idem now st⟩
  · exact ⟨by simp only [pyWrapper, h, wrapperMiss, get_state], cleanup_idem now st⟩

/-- C7, counterexample to literal state preservation: a store holding one
entry already expired at call time; the failing wrapped call leaves the map
empty (the `get` inside the wrapper evicted the expired entry), so the cache
state after the failed invocation is not equal to the state before it. -/
theorem C7_counterexample :
    pyWrapper 100 3600 3600 "f" [] [] (Except.error () : Except Unit PyVal) 10
      [("old", ⟨PyVal.int 7, 0, 5⟩)] =
      (Except.error (WrapError.producer ()), [], true) ∧
    ([] : Cache) ≠ [("old", ⟨PyVal.int 7, 0, 5⟩)] :=
  ⟨rfl, fun h => List.noConfusion h⟩

/-- C7, witness: a failing producer over a store with one live entry; the
failure propagates and the live entry survives untouched. -/
theorem C7_producer_failure_witness :
    pyWrapper 100 3600 3600 "g" [] [] (Except.error () : Except Unit PyVal) 10
      [("live", ⟨PyVal.int 7, 0, 50⟩)] =
      (Except.error (WrapError.producer ()), [("live", ⟨PyVal.int 7, 0, 50⟩)], true) ∧
    PersistentCache.cleanup 10
        (PersistentCache.cleanup 10 [("live", ⟨PyVal.int 7, 0, 50⟩)]) =
      PersistentCache.cleanup 10 [("live", ⟨PyVal.int 7, 0, 50⟩)] :=
  C7_producer_failure 100 3600 3600 "g" [] [] () 10
    [("live", ⟨PyVal.int 7, 0, 50⟩)] (Or.inl rfl)

/-! Lemmas about snapshot loading. -/

theorem loadEntries_cons_err {now : Int} {kv : DKey × PyVal}
    {rest : List (DKey × PyVal)} {e : PersistentCache.LoadError}
    (he : PersistentCache.loadEntry now kv = Except.error e) :
    PersistentCache.loadEntries now (kv :: rest) = Except.error e := by
  simp [PersistentCache.loadEntries, he]

theorem loadEntries_cons_some {now : Int} {kv : DKey × PyVal}
    {rest : List (DKey × PyVal)} {p : String × CacheEntry} {t : Cache}
    (he : PersistentCache.loadEntry now kv = Except.ok (some p))
    (ht : PersistentCache.loadEntries now rest = Except.ok t) :
    PersistentCache.loadEntries now (kv :: rest) = Except.ok (p :: t) := by
  simp [PersistentCache.loadEntries, he, ht]

theorem loadEntries_cons_none {now : Int} {kv : DKey × PyVal}
    {rest : List (DKey × PyVal)} {t : Cache}
    (he : PersistentCache.loadEntry now kv = Except.ok Option.none)
    (ht : PersistentCache.loadEntries now rest = Except.ok t) :
    PersistentCache.loadEntries now (kv :: rest) = Except.ok t := by
  simp [PersistentCache.loadEntries, he, ht]

theorem loadEntry_live {now : Int} {kv : DKey × PyVal} {q : String × CacheEntry}
    (h : PersistentCache.loadEntry now kv = Except.ok (some q)) :
    now < q.2.expires_at := by
  obtain ⟨k, v⟩ := kv
  cases k with
  | str s =>
      simp only [PersistentCache.loadEntry] at h
      split at h
      · rename_i ea heq
        split at h
        · rename_i hlt
          split at h
          · rename_i ts value hts hval
            obtain rfl : (s, ⟨value, ts, ea⟩) = q := by
              injection h with h1
              injection h1
            exact hlt
          · cases h
        · cases h
      · cases h
      · cases h
  | int n => cases h
  | bool b => cases h
  | none => cases h

theorem loadEntries_live {now : Int} :
    ∀ {kvs : List (DKey × PyVal)} {c : Cache},
      PersistentCache.loadEntries now kvs = Except.ok c →
      ∀ p ∈ c, now < p.2.expires_at := by
  intro kvs
  induction kvs with
  | nil =>
      intro c h p hp
      obtain rfl : c = [] := by
        injection h with h1
        exact h1.symm
      cases hp
  | cons kv rest ih =>
      intro c h p hp
      cases he : PersistentCache.loadEntry now kv with
      | error e =>
          rw [loadEntries_cons_err he] at h
          cases h
      | ok h1 =>
          cases ht : PersistentCache.loadEntries now rest with
          | error e =>
              simp [PersistentCache.loadEntries, he, ht] at h
          | ok t =>
              cases h1 with
              | some q =>
                  rw [loadEntries_cons_some he ht] at h
                  obtain rfl : c = q :: t := by
                    injection h with h1
                    exact h1.symm
                  rcases List.mem_cons.mp hp with h2 | h2
                  · exact h2 ▸ loadEntry_live he
                  · exact ih ht p h2
              | none =>
                  rw [loadEntries_cons_none he ht] at h
                  obtain rfl : c = t := by
                    injection h with h1
                    exact h1.symm
                  exact ih ht p hp

/-- C4 (amended): construction is robust against a missing snapshot file, an
unreadable one (`IOError`) and content `json.load` rejects — in each case the
store starts empty instead of raising — and every entry of a successfully
loaded map is live at load time (expired snapshot entries are dropped
silently and never enter the in-memory map).  However, content that parses as
JSON but does not have the expected shape raises during construction (only
`json.JSONDecodeError` and `IOError` are caught), see the counterexample. -/
theorem C4_load_never_fails :
    ∀ (now : Int),
      PersistentCache.loadCache now PersistentCache.LoadResult.missing =
        Except.ok [] ∧
      PersistentCache.loadCache now PersistentCache.LoadResult.ioError =
        Except.ok [] ∧
      PersistentCache.loadCache now PersistentCache.LoadResult.parseError =
        Except.ok [] ∧
      ∀ (v : PyVal) (c : Cache),
        PersistentCache.loadCache now (PersistentCache.LoadResult.parsed v) =
          Except.ok c →
        ∀ p ∈ c, now < p.2.expires_at := by
  intro now
  refine ⟨rfl, rfl, rfl, ?_⟩
  intro v c h p hp
  cases v with
  | dict kvs => exact loadEntries_live h p hp
  | none => cases h
  | bool b => cases h
  | int n => cases h
  | str s => cases h
  | list xs => cases h
  | tuple xs => cases h

/-- C4, counterexample to the claim as stated: a snapshot file whose content
is the well-formed JSON document `"not a cache"` — malformed as a snapshot —
makes `_load_cache` raise `AttributeError` (`.items()` on a string), which
the `except (json.JSONDecodeError, IOError)` clause does not catch, so Store
construction fails instead of starting empty. -/
theorem C4_counterexample :
    PersistentCache.loadCache 0
      (PersistentCache.LoadResult.parsed (PyVal.str "not a cache")) =
      Except.error PersistentCache.LoadError.notADict :=
  rfl

/-- C4, witness: the amended theorem at time `10`, with its last conjunct
applied to a parsed snapshot holding one live and one expired entry — the
loaded map keeps only the live entry, and it is live at load time. -/
theorem C4_load_never_fails_witness :
    PersistentCache.loadCache 10 PersistentCache.LoadResult.missing =
      Except.ok [] ∧
    ∀ p ∈ ([("live", ⟨PyVal.int 1, 0, 99⟩)] : Cache), (10 : Int) < p.2.expires_at :=
  ⟨(C4_load_never_fails 10).1,
   (C4_load_never_fails 10).2.2.2
     (PersistentCache.saveFile
       [("dead", ⟨PyVal.int 0, 0, 3⟩), ("live", ⟨PyVal.int 1, 0, 99⟩)])
     [("live", ⟨PyVal.int 1, 0, 99⟩)] rfl⟩

/-- C3: lazy expiry in `get`.  Looking up a key whose entry has expired
returns `None` and evicts that entry as part of the same call, while every
other still-live entry is untouched: its entry is unchanged in the map `get`
leaves, and a subsequent `get` on it still returns its value. -/
theorem C3_lazy_expiry :
    ∀ (now : Int) (c : Cache) (key : String) (e : CacheEntry),
      keysNodup c →
      alookup key c = some e →
      e.expires_at ≤ now →
      (PersistentCache.get now c key).1 = Option.none ∧
      alookup key ((PersistentCache.get now c key).2) = Option.none ∧
      ∀ (k2 : String) (e2 : CacheEntry), k2 ≠ key →
        alookup k2 c = some e2 → now < e2.expires_at →
        alookup k2 ((PersistentCache.get now c key).2) = some e2 ∧
        (PersistentCache.get now ((PersistentCache.get now c key).2) k2).1 =
          some e2.value := by
  intro now c key e hnd h hdead
  have hnone := alookup_cleanup_dead hnd h hdead
  have hstate := get_state now c key
  refine ⟨?_, ?_, ?_⟩
  · simp only [PersistentCache.get, hnone]
  · rw [hstate]
    exact hnone
  · intro k2 e2 hne h2 hlive
    have hk2 : alookup k2 (PersistentCache.cleanup now c) = some e2 :=
      alookup_cleanup_live hnd h2 hlive
    refine ⟨by rw [hstate]; exact hk2, ?_⟩
    rw [hstate]
    simp only [PersistentCache.get, cleanup_idem, hk2, hlive, if_pos]

/-- C3, witness: a store with an expired `"dead"` entry and a live `"live2"`
entry at time `10`; the theorem applied there, its last conjunct at
`"live2"`. -/
theorem C3_lazy_expiry_witness :
    (PersistentCache.get 10
      [("dead", ⟨PyVal.int 1, 0, 5⟩), ("live2", ⟨PyVal.int 2, 0, 50⟩)] "dead").1 =
      Option.none ∧
    alookup "dead" ((PersistentCache.get 10
      [("dead", ⟨PyVal.int 1, 0, 5⟩), ("live2", ⟨PyVal.int 2, 0, 50⟩)] "dead").2) =
      Option.none ∧
    alookup "live2" ((PersistentCache.get 10
      [("dead", ⟨PyVal.int 1, 0, 5⟩), ("live2", ⟨PyVal.int 2, 0, 50⟩)] "dead").2) =
      some ⟨PyVal.int 2, 0, 50⟩ ∧
    (PersistentCache.get 10 ((PersistentCache.get 10
      [("dead", ⟨PyVal.int 1, 0, 5⟩), ("live2", ⟨PyVal.int 2, 0, 50⟩)] "dead").2)
      "live2").1 = some (PyVal.int 2) := by
  have h := C3_lazy_expiry 10
    [("dead", ⟨PyVal.int 1, 0, 5⟩), ("live2", ⟨PyVal.int 2, 0, 50⟩)] "dead"
    ⟨PyVal.int 1, 0, 5⟩ (by decide) rfl (by decide)
  have h2 := h.2.2 "live2" ⟨PyVal.int 2, 0, 50⟩ (by decide) rfl (by decide)
  exact ⟨h.1, h.2.1, h2.1, h2.2⟩

/-! String cancellation, for reasoning about derived keys. -/

theorem stringAppendLeftCancel {a b c : String} (h : a ++ b = a ++ c) : b = c := by
  have h2 : a.data ++ b.data = a.data ++ c.data := congrArg String.data h
  exact String.ext (List.append_cancel_left h2)

theorem stringAppendRightCancel {a b c : String} (h : a ++ c = b ++ c) : a = b := by
  have h2 : a.data ++ c.data = b.data ++ c.data := congrArg String.data h
  exact String.ext (List.append_cancel_right h2)

/-- C6 (amended): the derived cache key is a deterministic function of the
producer's name and the JSON encodings of its arguments — equal encodings
give equal keys — and it separates calls whose encodings differ: two calls of
the same producer with the same keyword-argument encoding but different
positional-argument encodings, or the same positional-argument encoding but
different keyword-argument encodings, derive different keys (so
`title="Dune"` and `title="Foundation"` get distinct, independent entries).
Distinct argument values sharing one JSON encoding do collide, see the
counterexample. -/
theorem C6_key_derivation :
    (∀ (name : String) (a1 a2 : List PyVal) (k1 k2 : List (String × PyVal)),
      pyJsonDumps (PyVal.tuple a1) = pyJsonDumps (PyVal.tuple a2) →
      pyJsonDumps (kwargsToPy k1) = pyJsonDumps (kwargsToPy k2) →
      wrapperKey name a1 k1 = wrapperKey name a2 k2) ∧
    (∀ (name : String) (a1 a2 : List PyVal) (kw : List (String × PyVal)),
      pyJsonDumps (PyVal.tuple a1) ≠ pyJsonDumps (PyVal.tuple a2) →
      wrapperKey name a1 kw ≠ wrapperKey name a2 kw) ∧
    (∀ (name : String) (args : List PyVal) (k1 k2 : List (String × PyVal)),
      pyJsonDumps (kwargsToPy k1) ≠ pyJsonDumps (kwargsToPy k2) →
      wrapperKey name args k1 ≠ wrapperKey name args k2) := by
  refine ⟨?_, ?_, ?_⟩
  · intro name a1 a2 k1 k2 h1 h2
    simp [wrapperKey, h1, h2]
  · intro name a1 a2 kw hne hkey
    apply hne
    simp only [wrapperKey] at hkey
    exact stringAppendLeftCancel
      (stringAppendRightCancel (stringAppendRightCancel hkey))
  · intro name args k1 k2 hne hkey
    apply hne
    simp only [wrapperKey] at hkey
    exact stringAppendLeftCancel hkey

/-- C6, counterexample to collision freedom as claimed: the same producer
called with the tuple `(1, 2)` versus the list `[1, 2]` as its single
positional argument — two distinct argument values — derives the same key,
because `json.dumps` serializes tuples and lists identically. -/
theorem C6_counterexample :
    wrapperKey "f" [PyVal.tuple [PyVal.int 1, PyVal.int 2]] [] =
      wrapperKey "f" [PyVal.list [PyVal.int 1, PyVal.int 2]] [] ∧
    PyVal.tuple [PyVal.int 1, PyVal.int 2] ≠ PyVal.list [PyVal.int 1, PyVal.int 2] :=
  ⟨rfl, fun h => PyVal.noConfusion h⟩

/-- C6, witness: the `title="Dune"` versus `title="Foundation"` scenario —
the separation arm of the amended theorem applied there. -/
theorem C6_key_derivation_witness :
    wrapperKey "get_book" [] [("title", PyVal.str "Dune")] ≠
      wrapperKey "get_book" [] [("title", PyVal.str "Foundation")] :=
  C6_key_derivation.2.2 "get_book" [] [("title", PyVal.str "Dune")]
    [("title", PyVal.str "Foundation")] (by decide)

/-! Lemmas about the save/load round trip. -/

theorem pyDictAssign_append {acc : List (DKey × PyVal)} {k : DKey} (v : PyVal)
    (h : k ∉ acc.map Prod.fst) : pyDictAssign acc k v = acc ++ [(k, v)] := by
  induction acc with
  | nil => rfl
  | cons hd tl ih =>
      obtain ⟨k1, v1⟩ := hd
      have hk : ¬ k1 = k := by
        intro hkk
        exact h (by simp [hkk])
      have h2 : k ∉ tl.map Prod.fst := fun hmem => h (by simp [hmem])
      simp [pyDictAssign, hk, ih h2]

theorem buildPyDict_append :
    ∀ (l acc : List (DKey × PyVal)),
      ((acc ++ l).map Prod.fst).Nodup → buildPyDict l acc = acc ++ l := by
  intro l
  induction l with
  | nil =>
      intro acc _
      simp [buildPyDict]
  | cons hd rest ih =>
      intro acc h
      obtain ⟨k, v⟩ := hd
      have hsplit := List.nodup_append.mp (by simpa using h)
      have hk : k ∉ acc.map Prod.fst := by
        intro hmem
        exact hsplit.2.2 hmem (by simp)
      have hlist : (acc ++ [(k, v)]) ++ rest = acc ++ (k, v) :: rest := by
        rw [List.append_assoc]
        rfl
      have h3 : (((acc ++ [(k, v)]) ++ rest).map Prod.fst).Nodup := by
        rw [hlist]
        exact h
      calc buildPyDict ((k, v) :: rest) acc
      _ = buildPyDict rest (pyDictAssign acc k v) := rfl
      _ = buildPyDict rest (acc ++ [(k, v)]) := by rw [pyDictAssign_append v hk]
      _ = (acc ++ [(k, v)]) ++ rest := ih _ h3
      _ = acc ++ (k, v) :: rest := hlist

theorem normalizePairs_map_entries (c : Cache) :
    normalizePairs (c.map (fun p => (DKey.str p.1, PersistentCache.entryToPy p.2))) =
      c.map (fun p => (DKey.str p.1, jsonNormalize (PersistentCache.entryToPy p.2))) := by
  induction c with
  | nil => rfl
  | cons hd tl ih => simp [normalizePairs, coerceKey, ih]

theorem normalize_entryToPy (e : CacheEntry) :
    jsonNormalize (PersistentCache.entryToPy e) =
      PyVal.dict [(DKey.str "value", jsonNormalize e.value),
                  (DKey.str "timestamp", PyVal.int e.timestamp),
                  (DKey.str "expires_at", PyVal.int e.expires_at)] :=
  rfl

theorem loadEntry_norm (now : Int) (k : String) (e : CacheEntry) :
    PersistentCache.loadEntry now (DKey.str k, jsonNormalize (PersistentCache.entryToPy e)) =
      Except.ok (if now < e.expires_at
        then some (k, ⟨jsonNormalize e.value, e.timestamp, e.expires_at⟩)
        else Option.none) := by
  rw [normalize_entryToPy]
  by_cases h : now < e.expires_at
  · simp [PersistentCache.loadEntry, PersistentCache.pyDictGet,
      PersistentCache.dictFind, h]
  · simp [PersistentCache.loadEntry, PersistentCache.pyDictGet,
      PersistentCache.dictFind, h]

theorem loadEntries_norm (t2 : Int) :
    ∀ (c : Cache),
      PersistentCache.loadEntries t2
        (c.map (fun p => (DKey.str p.1, jsonNormalize (PersistentCache.entryToPy p.2)))) =
      Except.ok ((PersistentCache.cleanup t2 c).map
        (fun p => (p.1, ⟨jsonNormalize p.2.value, p.2.timestamp, p.2.expires_at⟩))) := by
  intro c
  induction c with
  | nil => rfl
  | cons hd tl ih =>
      obtain ⟨k, e⟩ := hd
      have he := loadEntry_norm t2 k e
      by_cases h : t2 < e.expires_at
      · rw [if_pos h] at he
        rw [List.map_cons, loadEntries_cons_some he ih]
        have hc : PersistentCache.cleanup t2 ((k, e) :: tl) =
            (k, e) :: PersistentCache.cleanup t2 tl := by
          simp [PersistentCache.cleanup, List.filter_cons, h]
        rw [hc, List.map_cons]
      · rw [if_neg h] at he
        rw [List.map_cons, loadEntries_cons_none he ih]
        have hc : PersistentCache.cleanup t2 ((k, e) :: tl) =
            PersistentCache.cleanup t2 tl := by
          simp [PersistentCache.cleanup, List.filter_cons, h]
        rw [hc]

/-- C8 (amended): loading, at any later instant, the snapshot a prior store's
last successful `set`/`clear` wrote yields exactly the prior store's entries
that are still live at load time — same keys, same creation and expiry
timestamps — with each value replaced by its JSON round trip
`json.loads(json.dumps(value))`.  For values that JSON represents exactly
(everything except tuples and non-string dict keys) this is the identical
value; a tuple value, however, comes back as a list, see the
counterexample. -/
theorem C8_roundtrip :
    ∀ (t2 : Int) (c : Cache), keysNodup c →
      PersistentCache.loadCache t2
        (PersistentCache.LoadResult.parsed (PersistentCache.saveFile c)) =
      Except.ok ((PersistentCache.cleanup t2 c).map
        (fun p => (p.1, ⟨jsonNormalize p.2.value, p.2.timestamp, p.2.expires_at⟩))) := by
  intro t2 c hnd
  have hstr : Function.Injective DKey.str := fun a b h => by injection h
  have hkeys : ((([] : List (DKey × PyVal)) ++
      c.map (fun p => (DKey.str p.1, jsonNormalize (PersistentCache.entryToPy p.2)))).map
        Prod.fst).Nodup := by
    simp only [List.nil_append, List.map_map]
    have : ((fun p : String × CacheEntry =>
        (DKey.str p.1, jsonNormalize (PersistentCache.entryToPy p.2))) ∘ id) = id ∘
        (fun p : String × CacheEntry =>
        (DKey.str p.1, jsonNormalize (PersistentCache.entryToPy p.2))) := rfl
    have hmap : (Prod.fst ∘ fun p : String × CacheEntry =>
        (DKey.str p.1, jsonNormalize (PersistentCache.entryToPy p.2))) =
        DKey.str ∘ Prod.fst := rfl
    rw [hmap, ← List.map_map]
    exact hnd.map hstr
  have hsave1 : PersistentCache.saveFile c =
      PyVal.dict (buildPyDict (c.map (fun p =>
        (DKey.str p.1, jsonNormalize (PersistentCache.entryToPy p.2)))) []) := by
    show PyVal.dict (buildPyDict (normalizePairs (c.map (fun p =>
      (DKey.str p.1, PersistentCache.entryToPy p.2)))) []) = _
    rw [normalizePairs_map_entries]
  have hb := buildPyDict_append
    (c.map (fun p => (DKey.str p.1, jsonNormalize (PersistentCache.entryToPy p.2)))) [] hkeys
  rw [List.nil_append] at hb
  rw [hsave1, hb]
  show PersistentCache.loadEntries t2 _ = _
  exact loadEntries_norm t2 c

/-- C8, counterexample to exact round-tripping of values: a prior store whose
single live entry holds the tuple value `(1,)`; the reloaded store holds the
same key and timestamps but the list value `[1]` — a different value —
because JSON has no tuples. -/
theorem C8_counterexample :
    PersistentCache.loadCache 0 (PersistentCache.LoadResult.parsed
      (PersistentCache.saveFile [("k", ⟨PyVal.tuple [PyVal.int 1], 0, 100⟩)])) =
      Except.ok [("k", ⟨PyVal.list [PyVal.int 1], 0, 100⟩)] ∧
    PyVal.list [PyVal.int 1] ≠ PyVal.tuple [PyVal.int 1] :=
  ⟨rfl, fun h => PyVal.noConfusion h⟩

/-- C8, witness: the amended round trip for a two-entry store, one entry
meanwhile expired, whose values JSON represents exactly — the fresh store
holds exactly the still-live entry, unchanged. -/
theorem C8_roundtrip_witness :
    PersistentCache.loadCache 10 (PersistentCache.LoadResult.parsed
      (PersistentCache.saveFile
        [("a", ⟨PyVal.str "v", 0, 100⟩), ("b", ⟨PyVal.int 2, 1, 5⟩)])) =
      Except.ok [("a", ⟨PyVal.str "v", 0, 100⟩)] :=
  C8_roundtrip 10
    [("a", ⟨PyVal.str "v", 0, 100⟩), ("b", ⟨PyVal.int 2, 1, 5⟩)] (by decide)
